import Mathlib

/-!
# Verification of the tangled.sh knot server request handlers

Shallow embedding of `knotserver/util.go` (HTTP handlers of the knot server)
and of the signed HTTP client (`SignerTransport`), together with proofs of
the specified properties.

Conventions:
* Go strings are Lean `String`s, byte slices are `List Nat` with each
  element `< 256`.
* The `git` package (object-store accessor) is not part of the sources
  under verification; its behaviour is modelled from the specification and
  each such definition is marked `Modelled from the spec:` in its
  doc comment.  The HTTP handlers themselves are translated directly from
  `knotserver/util.go`.
-/

namespace Tangled

/-! ## Path model: `filepath-securejoin`'s `SecureJoin` and `filepath.Join`

`SecureJoin(root, unsafePath)` lexically resolves `unsafePath` component by
component below `root`: empty components and `.` are skipped, `..` pops the
last accumulated component but never ascends above `root`, and everything
else is appended.  (The library additionally resolves symlinks relative to
`root`; the filesystem-free lexical core is modelled here, which is the
behaviour on a symlink-free tree.) -/

/-- Lexical component resolution of `SecureJoin`: process the components of
the unsafe path against an accumulator that starts at the root. -/
def sjComps : List String → List String → List String
  | acc, [] => acc
  | acc, c :: rest =>
    if c = "" ∨ c = "." then sjComps acc rest
    else if c = ".." then sjComps acc.dropLast rest
    else sjComps (acc ++ [c]) rest

/-- Render a component list as a path suffix: each component preceded by a
slash. -/
def renderComps (cs : List String) : String :=
  cs.foldl (fun a c => a ++ "/" ++ c) ""

/-- `securejoin.SecureJoin(root, unsafePath)`: the unsafe path is resolved
lexically below `root`. -/
def secureJoin (root unsafePath : String) : String :=
  root ++ renderComps (sjComps [] (unsafePath.splitOn "/"))

/-- Go `filepath.Clean` on a relative path, at the component level: like
`sjComps` but a leading run of `..` is preserved rather than dropped. -/
def cleanComps : List String → List String → List String
  | acc, [] => acc
  | acc, c :: rest =>
    if c = "" ∨ c = "." then cleanComps acc rest
    else if c = ".." then
      match acc.getLast? with
      | none => cleanComps [".."] rest
      | some l =>
        if l = ".." then cleanComps (acc ++ [".."]) rest
        else cleanComps acc.dropLast rest
    else cleanComps (acc ++ [c]) rest

/-- Go `filepath.Join(a, b)` (for relative operands, as used by
`NewRepo`): concatenate with a separator and clean. -/
def filepathJoin (a b : String) : String :=
  String.intercalate "/" (cleanComps [] ((a ++ "/" ++ b).splitOn "/"))

/-- `didPath` (knotserver/util.go): join the `did` and `name` URL
parameters with `SecureJoin`. -/
def didPath (did name : String) : String := secureJoin did name

/-- The path at which every repository-serving handler opens the
repository: `securejoin.SecureJoin(h.c.Repo.ScanPath, didPath(r))`. -/
def repoOpenPath (scanPath did name : String) : String :=
  secureJoin scanPath (didPath did name)

/-- A path lies under `root` when it is `root` followed by a (possibly
empty) sequence of honest components: none empty, none `.`, none `..`. -/
def underRoot (root p : String) : Prop :=
  ∃ cs : List String,
    (∀ c ∈ cs, c ≠ "" ∧ c ≠ "." ∧ c ≠ "..") ∧ p = root ++ renderComps cs

theorem sjComps_good (l : List String) :
    ∀ acc : List String, (∀ c ∈ acc, c ≠ "" ∧ c ≠ "." ∧ c ≠ "..") →
      ∀ c ∈ sjComps acc l, c ≠ "" ∧ c ≠ "." ∧ c ≠ ".." := by
  induction l with
  | nil =>
    intro acc h c hc
    rw [sjComps] at hc
    exact h c hc
  | cons x xs ih =>
    intro acc h c hc
    rw [sjComps] at hc
    split at hc
    · exact ih acc h c hc
    · split at hc
      · exact ih acc.dropLast (fun d hd => h d (List.dropLast_subset acc hd)) c hc
      · refine ih (acc ++ [x]) ?_ c hc
        intro d hd
        rcases List.mem_append.mp hd with h1 | h1
        · exact h d h1
        · rcases List.mem_singleton.mp h1 with rfl
          rename_i hne hdd
          push_neg at hne
          exact ⟨hne.1, hne.2, hdd⟩

theorem secureJoin_underRoot (root p : String) :
    underRoot root (secureJoin root p) := by
  refine ⟨sjComps [] (p.splitOn "/"), ?_, rfl⟩
  exact sjComps_good (p.splitOn "/") [] (by intro c hc; cases hc)

/-! ## Data model of the git layer and of the response types

The `types` package structs are reconstructed with exactly the fields the
handlers populate.  The `git` package itself is not among the sources; a
repository handle is therefore a record of the observable results of its
read operations, and `git.Open` is modelled from the spec. -/

/-- A commit, identified by its content hash (the handlers treat commits
opaquely). -/
structure Commit where
  hash : String
deriving DecidableEq

/-- `types.Branch`: name and hash. -/
structure Branch where
  name : String
  hash : String
deriving DecidableEq

/-- `types.TagReference` as populated by the handlers: name, hash and
optional message. -/
structure TagRef where
  name : String
  hash : String
  message : String
deriving DecidableEq

/-- A file-tree entry as reported by `git.FileTree` (treated opaquely by
the handlers). -/
structure FileEntry where
  name : String
deriving DecidableEq

/-- `types.ConflictInfo`: one merge conflict as serialized to the client. -/
structure ConflictInfo where
  filename : String
  reason : String
deriving DecidableEq

/-- A conflict as carried by the git layer's `git.ErrMerge` value. -/
structure GitConflict where
  filename : String
  reason : String
deriving DecidableEq

/-- The payload of `git.ErrMerge`: the complete conflict list and a summary
message. -/
structure ErrMergeData where
  conflicts : List GitConflict
  message : String
deriving DecidableEq

/-- `types.MergeCheckResponse`. -/
structure MergeCheckResponse where
  isConflicted : Bool
  conflicts : List ConflictInfo
  message : String
deriving DecidableEq

/-- `types.RepoIndexResponse` with the fields `RepoIndex` populates. -/
structure RepoIndexResponse where
  isEmpty : Bool
  ref : String
  commits : List Commit
  description : String
  readme : String
  readmeFileName : String
  files : List FileEntry
  branches : List Branch
  tags : List TagRef
  totalCommits : Nat
deriving DecidableEq

/-- `types.RepoIndexResponse{IsEmpty: true}`: all other fields at their Go
zero values. -/
def emptyRepoIndexResponse : RepoIndexResponse :=
  ⟨true, "", [], "", "", "", [], [], [], 0⟩

/-- `types.RepoLogResponse`. -/
structure RepoLogResponse where
  commits : List Commit
  ref : String
  description : String
  log : Bool
  total : Nat
  page : Nat
  perPage : Nat
deriving DecidableEq

/-- `types.RepoBlobResponse`. -/
structure RepoBlobResponse where
  ref : String
  contents : String
  path : String
  isBinary : Bool
  sizeHint : Nat
deriving DecidableEq

/-- The archive response: its headers and the paths of the tar entries
streamed into the body. -/
structure ArchiveResponse where
  headers : List (String × String)
  entries : List String
deriving DecidableEq

/-- Outcome of a handler, mirroring the knotserver response helpers:
`writeJSON` (200 + JSON body), `writeConflict` (structured conflict body),
`writeError(status)`, `notFound` (404), or a bare `WriteHeader(status)`. -/
inductive HResult (α : Type) where
  | json (v : α)
  | conflict (v : MergeCheckResponse)
  | httpError (status : Nat) (msg : String)
  | missing
  | statusOnly (status : Nat)
deriving DecidableEq

/-- Modelled from the spec: the HTTP status of each response helper.
`writeJSON` answers 200, `notFound` answers 404 ("404 not found" row of the
interface table), `writeError` answers the given status, and
`writeConflict` answers 400 (Merge row of the interface table: "400
conflict (structured body)"). -/
def HResult.status {α : Type} : HResult α → Nat
  | .json _ => 200
  | .conflict _ => 400
  | .httpError s _ => s
  | .missing => 404
  | .statusOnly s => s

/-- Errors of the git layer that the handlers distinguish. -/
inductive GitErr where
  | referenceNotFound
  | repositoryNotFound
  | other (msg : String)
deriving DecidableEq

/-- Result of `git.Repo.FileContent`: content, the typed binary-file
signal, the typed file-not-found error, or another failure. -/
inductive FileContentResult where
  | ok (content : String)
  | binaryFile
  | fileNotFound
  | failed (msg : String)
deriving DecidableEq

/-- Outcome of `git.Repo.MergeWithOptions` / `git.Repo.MergeCheck`: clean,
a `git.ErrMerge` carrying the conflict set, or another error. -/
inductive MergeOutcome where
  | ok
  | conflicted (e : ErrMergeData)
  | failed (msg : String)
deriving DecidableEq

/-- A repository handle as the handlers observe it: the results of the git
layer's read operations on the opened (path, ref).  Fields are `Except`
valued exactly where the handlers check an error return. -/
structure GitRepo where
  commitsR : Except String (List Commit)
  branchesR : Except String (List Branch)
  tagsR : List TagRef
  fileContentR : String → FileContentResult
  fileTreeR : String → Except String (List FileEntry)
  mainBranchR : Except String String
  mergeR : String → String → MergeOutcome
  mergeCheckR : String → String → MergeOutcome
  treeR : List String

/-- State of the object store at the requested (path, ref). -/
inductive RepoState where
  | invalid
  | emptyRepo
  | valid (gr : GitRepo)

/-- Modelled from the spec: `git.Open(path, ref)` fails with
`ReferenceNotFound` when no commits exist yet (or the ref does not
resolve), with `RepositoryNotFound` when the path does not contain a valid
object store, and otherwise yields a handle. -/
def gitOpen : RepoState → Except GitErr GitRepo
  | .invalid => .error .repositoryNotFound
  | .emptyRepo => .error .referenceNotFound
  | .valid gr => .ok gr

/-! ## Auxiliary models: blob store, Atoi, tar writer -/

/-- A blob's raw bytes. -/
structure BlobData where
  bytes : List Nat
deriving DecidableEq

/-- Modelled from the spec: binary detection is "inferred (e.g., presence
of NUL bytes ... within a sampled prefix)", a pure function of the blob
bytes. -/
def isBinaryBlob (b : BlobData) : Bool :=
  (b.bytes.take 8000).contains 0

/-- Render blob bytes as a string, byte for byte. -/
def stringOfBytes (bs : List Nat) : String :=
  String.mk (bs.map Char.ofNat)

/-- Modelled from the spec: `git.Repo.FileContent(path)` resolves `path`
to a blob among the tree's file paths (`files` lists blob paths only, so a
path that is absent or resolves to a subtree is not in it); a
binary-detected blob yields the typed `BinaryFile` signal rather than
content bytes; a missing path yields `FileNotFound`. -/
def fileContentOf (files : List (String × BlobData)) (path : String) :
    FileContentResult :=
  match files.lookup path with
  | none => .fileNotFound
  | some b => if isBinaryBlob b then .binaryFile else .ok (stringOfBytes b.bytes)

/-- Go `strconv.Atoi`: optional sign, at least one digit, nothing else,
and a 64-bit range check (out-of-range input returns `ErrRange`, hence
`none` here). -/
def atoiGo (s : String) : Option Int :=
  let signDigits : Bool × List Char :=
    match s.data with
    | '-' :: rest => (true, rest)
    | '+' :: rest => (false, rest)
    | l => (false, l)
  let neg := signDigits.1
  let ds := signDigits.2
  if ds.isEmpty then none
  else if ds.all (fun c => c.isDigit) then
    let n : Int := Int.ofNat (ds.foldl (fun a c => a * 10 + (c.toNat - 48)) 0)
    let v : Int := if neg then -n else n
    if v < -9223372036854775808 ∨ 9223372036854775807 < v then none else some v
  else none

/-- The query-parameter idiom of `Log`: start from the default; when the
parameter is nonempty, `strconv.Atoi` parses it, and a parsed value `> 0`
replaces the default (`r.URL.Query().Get` yields `""` for an absent
parameter). -/
def posIntParam (param : String) (dflt : Nat) : Nat :=
  if param = "" then dflt
  else
    match atoiGo param with
    | some p => if 0 < p then p.toNat else dflt
    | none => dflt

/-- Go `strings.HasSuffix`, over the character sequence. -/
def hasSuffixGo (s suffix : String) : Bool :=
  suffix.data.isSuffixOf s.data

/-- Go `strings.TrimSuffix`: strip the suffix when present. -/
def trimSuffixGo (s suffix : String) : String :=
  if hasSuffixGo s suffix then
    String.mk (s.data.take (s.data.length - suffix.data.length))
  else s

/-- Modelled from the spec: `git.Repo.WriteTar(w, prefix)` walks the
resolved tree recursively "writing each entry under `prefix/`"; the walk's
relative entry paths are the handle's `treeR`, and the writer places each
at `prefix ++ "/" ++ entry`. -/
def writeTar (pfx : String) (relPaths : List String) : List String :=
  relPaths.map (fun p => pfx ++ "/" ++ p)

/-! ## The handlers of knotserver/util.go -/

/-- The readme candidates and configured main branch of `h.c.Repo`. -/
structure RepoConfig where
  readme : List String
  mainBranch : String

/-- The readme loop of `RepoIndex`: the last candidate with nonempty
content wins (both the content and the file name are recorded). -/
def readmeScan (gr : GitRepo) (candidates : List String) : String × String :=
  candidates.foldl (fun acc readme =>
    match gr.fileContentR readme with
    | .ok content => if content.length > 0 then (content, readme) else acc
    | _ => acc) ("", "")

/-- `Handle.RepoIndex`: open the repository; `plumbing.ErrReferenceNotFound`
means an empty repository and yields `{IsEmpty: true}`; any other open
failure is a 404; otherwise collect commits (truncated to the first 10,
with the total recorded first), branches, tags, the last nonempty readme
candidate, the root file tree and the ref (main-branch heuristic when the
ref was empty). -/
def repoIndex (st : RepoState) (ref0 : String) (cfg : RepoConfig)
    (desc : String) : HResult RepoIndexResponse :=
  match gitOpen st with
  | .error .referenceNotFound => .json emptyRepoIndexResponse
  | .error _ => .missing
  | .ok gr =>
    match gr.commitsR with
    | .error e => .httpError 500 e
    | .ok commits0 =>
      let total := commits0.length
      let commits := if commits0.length > 10 then commits0.take 10 else commits0
      match gr.branchesR with
      | .error e => .httpError 500 e
      | .ok branches =>
        let rtags := gr.tagsR
        let readmePair := readmeScan gr cfg.readme
        match gr.fileTreeR "" with
        | .error e => .httpError 500 e
        | .ok files =>
          match (if ref0 = "" then gr.mainBranchR else .ok ref0) with
          | .error e => .httpError 500 e
          | .ok ref =>
            .json ⟨false, ref, commits, desc, readmePair.1, readmePair.2,
                   files, branches, rtags, total⟩

/-- `Handle.Blob`: open the repository (404 on failure), fetch the file
content at the tree path; the typed binary-file error sets `IsBinary` and
leaves the contents at the empty value; `object.ErrFileNotFound` is a 404;
other errors are a 500. -/
def blobHandler (st : RepoState) (ref treePath : String) :
    HResult RepoBlobResponse :=
  match gitOpen st with
  | .error _ => .missing
  | .ok gr =>
    match gr.fileContentR treePath with
    | .binaryFile => .json ⟨ref, "", treePath, true, 0⟩
    | .fileNotFound => .missing
    | .failed e => .httpError 500 e
    | .ok contents => .json ⟨ref, contents, treePath, false, contents.length⟩

/-- `Handle.Log`: open the repository (404 on failure), materialize the
commit list, parse `page`/`per_page` (defaults 1 and 30, a parse failure
or non-positive value keeps the default), slice
`commits[start:min(start+pageSize, total)]` with an empty slice once
`start >= total`, and answer with the unpaginated total. -/
def logHandler (st : RepoState) (ref desc pageParam perPageParam : String) :
    HResult RepoLogResponse :=
  match gitOpen st with
  | .error _ => .missing
  | .ok gr =>
    match gr.commitsR with
    | .error e => .httpError 500 e
    | .ok commits0 =>
      let page := posIntParam pageParam 1
      let pageSize := posIntParam perPageParam 30
      let start := (page - 1) * pageSize
      let endIdx := start + pageSize
      let total := commits0.length
      let commits :=
        if start ≥ total then []
        else (commits0.drop start).take (min endIdx total - start)
      .json ⟨commits, ref, desc, true, total, page, pageSize⟩

/-- `Handle.Archive`: only `.tar.gz` requests are served (404 otherwise);
the ref is the file name with the suffix trimmed; the
`Content-Disposition: inline; filename="<name>-<ref>.tar.gz"` and
`Content-Type: application/gzip` headers are set, the repository is opened
(404 on failure) and the tar entries are written under the
`<name>-<ref>` prefix. -/
def archiveHandler (st : RepoState) (name file : String) :
    HResult ArchiveResponse :=
  if ¬ (hasSuffixGo file ".tar.gz") then .missing
  else
    let ref := trimSuffixGo file ".tar.gz"
    let filename := name ++ "-" ++ ref ++ ".tar.gz"
    let hdrs := [("Content-Disposition", "inline; filename=\"" ++ filename ++ "\""),
                 ("Content-Type", "application/gzip")]
    match gitOpen st with
    | .error _ => .missing
    | .ok gr => .json ⟨hdrs, writeTar (name ++ "-" ++ ref) gr.treeR⟩

/-- The decoded body of `PUT /repo/new`. -/
structure NewRepoRequest where
  did : String
  name : String
  defaultBranch : String
deriving DecidableEq

/-- Outcome of `git.InitBare`, as the handler distinguishes it
(`gogit.ErrRepositoryAlreadyExists` or any other error). -/
inductive InitBareResult where
  | ok
  | alreadyExists
  | failed (msg : String)
deriving DecidableEq

/-- `Handle.NewRepo`: decode the body (400 on failure), substitute the
configured main branch for an empty `default_branch`, init a bare
repository at `SecureJoin(scanPath, filepath.Join(did, name))` (409 when
it already exists, 500 on any other failure), register the permissions
(500 on failure) and answer 204. -/
def newRepoHandler (body : Option NewRepoRequest) (cfg : RepoConfig)
    (scanPath : String) (initBare : String → String → InitBareResult)
    (addRepoPerm : String → String → Except String Unit) : HResult Unit :=
  match body with
  | none => .httpError 400 "invalid request body"
  | some data0 =>
    let data := if data0.defaultBranch = ""
      then { data0 with defaultBranch := cfg.mainBranch } else data0
    let relativeRepoPath := filepathJoin data.did data.name
    let repoPath := secureJoin scanPath relativeRepoPath
    match initBare repoPath data.defaultBranch with
    | .alreadyExists => .httpError 409 "That repo already exists!"
    | .failed e => .httpError 500 e
    | .ok =>
      match addRepoPerm data.did relativeRepoPath with
      | .error e => .httpError 500 e
      | .ok _ => .statusOnly 204

/-- `types.MergeRequest` as decoded by `Handle.Merge`. -/
structure MergeRequestBody where
  patch : String
  branch : String
  authorName : String
  authorEmail : String
  commitBody : String
  commitMessage : String
deriving DecidableEq

/-- `Handle.Merge`: decode the body (400 with the decode error), open the
repository at the branch (404 on failure), merge with the caller's author
options; a `git.ErrMerge` becomes the structured conflict response with
one `ConflictInfo` per conflict plus the summary message, any other merge
failure is a 400, success answers 200. -/
def mergeHandler (st : RepoState) (body : Except String MergeRequestBody) :
    HResult Unit :=
  match body with
  | .error e => .httpError 400 e
  | .ok data =>
    match gitOpen st with
    | .error _ => .missing
    | .ok gr =>
      match gr.mergeR data.patch data.branch with
      | .ok => .statusOnly 200
      | .conflicted e =>
        .conflict ⟨true, e.conflicts.map (fun c => ⟨c.filename, c.reason⟩),
                   e.message⟩
      | .failed msg => .httpError 400 msg

/-- `Handle.MergeCheck`: decode `{patch, branch}` (400 with the decode
error), open the repository at the branch (404 on failure), dry-run the
merge; no error answers `{is_conflicted: false}`, a `git.ErrMerge` becomes
the structured conflict response with one `ConflictInfo` per conflict plus
the summary message, any other failure is a 500. -/
def mergeCheckHandler (st : RepoState) (body : Except String (String × String)) :
    HResult MergeCheckResponse :=
  match body with
  | .error e => .httpError 400 e
  | .ok pb =>
    match gitOpen st with
    | .error _ => .missing
    | .ok gr =>
      match gr.mergeCheckR pb.1 pb.2 with
      | .ok => .json ⟨false, [], ""⟩
      | .conflicted e =>
        .conflict ⟨true, e.conflicts.map (fun c => ⟨c.filename, c.reason⟩),
                   e.message⟩
      | .failed msg => .httpError 500 msg

/-! ## HMAC-SHA256 and the signed client transport

`SignerTransport.RoundTrip` signs `method + URL.Path + timestamp` with
HMAC-SHA256 and Go's `hex.EncodeToString` (lowercase).  The Go standard
library primitives are embedded by implementing SHA-256 (FIPS 180-4) and
HMAC (RFC 2104) over byte lists. -/

/-- Truncate to a 32-bit word. -/
def w32 (n : Nat) : Nat := n % 4294967296

/-- 32-bit rotate right. -/
def rotr32 (n x : Nat) : Nat := w32 ((x >>> n) ||| (x <<< (32 - n)))

/-- The 64 SHA-256 round constants, written in decimal. -/
def sha256K : List Nat :=
  [1116352408, 1899447441, 3049323471, 3921009573, 961987163,
   1508970993, 2453635748, 2870763221, 3624381080, 310598401,
   607225278, 1426881987, 1925078388, 2162078206, 2614888103,
   3248222580, 3835390401, 4022224774, 264347078, 604807628,
   770255983, 1249150122, 1555081692, 1996064986, 2554220882,
   2821834349, 2952996808, 3210313671, 3336571891, 3584528711,
   113926993, 338241895, 666307205, 773529912, 1294757372,
   1396182291, 1695183700, 1986661051, 2177026350, 2456956037,
   2730485921, 2820302411, 3259730800, 3345764771, 3516065817,
   3600352804, 4094571909, 275423344, 430227734, 506948616,
   659060556, 883997877, 958139571, 1322822218, 1537002063,
   1747873779, 1955562222, 2024104815, 2227730452, 2361852424,
   2428436474, 2756734187, 3204031479, 3329325298]

/-- The eight SHA-256 initial hash values, written in decimal. -/
def sha256H0 : List Nat :=
  [1779033703, 3144134277, 1013904242, 2773480762,
   1359893119, 2600822924, 528734635, 1541459225]

/-- `k` big-endian bytes of `v`. -/
def beBytes : Nat → Nat → List Nat
  | 0, _ => []
  | k + 1, v => beBytes k (v / 256) ++ [v % 256]

/-- SHA-256 padding: append `0x80`, zero bytes up to 56 mod 64, then the
bit length as 8 big-endian bytes. -/
def padMsg (m : List Nat) : List Nat :=
  let l := m.length
  let zeroLen := (119 - l % 64) % 64
  m ++ 0x80 :: List.replicate zeroLen 0 ++ beBytes 8 (8 * l)

/-- Group bytes into big-endian 32-bit words. -/
def bytesToWords : List Nat → List Nat
  | a :: b :: c :: d :: rest =>
    (((a * 256 + b) * 256 + c) * 256 + d) :: bytesToWords rest
  | _ => []

/-- Split a word list into 16-word blocks. -/
def chunks16 : List Nat → List (List Nat)
  | [] => []
  | x :: xs => (x :: xs).take 16 :: chunks16 ((x :: xs).drop 16)
  termination_by l => l.length
  decreasing_by simp [List.length_drop]; omega

def ssig0 (x : Nat) : Nat := (rotr32 7 x) ^^^ (rotr32 18 x) ^^^ (x >>> 3)

def ssig1 (x : Nat) : Nat := (rotr32 17 x) ^^^ (rotr32 19 x) ^^^ (x >>> 10)

def bsig0 (x : Nat) : Nat := (rotr32 2 x) ^^^ (rotr32 13 x) ^^^ (rotr32 22 x)

def bsig1 (x : Nat) : Nat := (rotr32 6 x) ^^^ (rotr32 11 x) ^^^ (rotr32 25 x)

/-- One extension step of the message schedule. -/
def schedStep (ws : List Nat) : List Nat :=
  let n := ws.length
  ws ++ [w32 (ssig1 (ws.getD (n - 2) 0) + ws.getD (n - 7) 0 +
              ssig0 (ws.getD (n - 15) 0) + ws.getD (n - 16) 0)]

/-- Extend a 16-word block to the 64-word schedule. -/
def schedule (ws : List Nat) : List Nat :=
  (List.range 48).foldl (fun acc _ => schedStep acc) ws

/-- One SHA-256 round on the state `[a,b,c,d,e,f,g,h]`. -/
def sha256Round (st : List Nat) (k w : Nat) : List Nat :=
  match st with
  | [a, b, c, d, e, f, g, h] =>
    let ch := (e &&& f) ^^^ ((4294967295 ^^^ e) &&& g)
    let t1 := w32 (h + bsig1 e + ch + k + w)
    let maj := (a &&& b) ^^^ (a &&& c) ^^^ (b &&& c)
    let t2 := w32 (bsig0 a + maj)
    [w32 (t1 + t2), a, b, c, w32 (d + t1), e, f, g]
  | other => other

/-- Compress one 64-byte block into the chaining state. -/
def compressBlock (h : List Nat) (block : List Nat) : List Nat :=
  let ws := schedule block
  let st := (sha256K.zip ws).foldl (fun st kw => sha256Round st kw.1 kw.2) h
  h.zipWith (fun a b => w32 (a + b)) st

/-- SHA-256 of a byte list, as a 32-byte list. -/
def sha256 (msg : List Nat) : List Nat :=
  let hs := (chunks16 (bytesToWords (padMsg msg))).foldl compressBlock sha256H0
  hs.flatMap (fun w => beBytes 4 w)

/-- RFC 2104 key normalization for a 64-byte block size. -/
def hmacKey (key : List Nat) : List Nat :=
  let k := if key.length > 64 then sha256 key else key
  k ++ List.replicate (64 - k.length) 0

/-- HMAC-SHA256. -/
def hmacSha256 (key msg : List Nat) : List Nat :=
  let k := hmacKey key
  let ipadded := k.map (fun b => b ^^^ 0x36)
  let opadded := k.map (fun b => b ^^^ 0x5c)
  sha256 (opadded ++ sha256 (ipadded ++ msg))

/-- The lowercase hexadecimal alphabet of Go's `hex.EncodeToString`
(its `hextable` constant). -/
def hexAlphabet : List Char := "0123456789abcdef".data

/-- One hex digit. -/
def hexDigit (n : Nat) : Char := hexAlphabet.getD n '0'

/-- Go `hex.EncodeToString`: two lowercase digits per byte, high nibble
first. -/
def hexEncode (bs : List Nat) : String :=
  String.mk (bs.flatMap (fun b => [hexDigit (b / 16), hexDigit (b % 16)]))

/-- The UTF-8-agnostic byte view of the ASCII strings the transport
signs. -/
def strBytes (s : String) : List Nat := s.data.map Char.toNat

/-- An outgoing HTTP request as `SignerTransport.RoundTrip` sees it:
method, URL path, URL query, body and headers. -/
structure HttpRequest where
  method : String
  urlPath : String
  urlQuery : String
  body : String
  headers : List (String × String)
deriving DecidableEq

/-- `req.Header.Set(k, v)`: replace any existing values of the key. -/
def setHeader (hs : List (String × String)) (k v : String) :
    List (String × String) :=
  hs.filter (fun p => p.1 ≠ k) ++ [(k, v)]

/-- Read a header value. -/
def headerVal (hs : List (String × String)) (k : String) : Option String :=
  (hs.find? (fun p => p.1 = k)).map Prod.snd

/-- `SignerTransport.RoundTrip` (the generated timestamp is an input):
the signature is the lowercase-hex HMAC-SHA256, keyed with the shared
secret, of `method + URL.Path + timestamp`, carried in `X-Signature`, with
the timestamp in `X-Timestamp`. -/
def roundTrip (secret timestamp : String) (req : HttpRequest) : HttpRequest :=
  let message := req.method ++ req.urlPath ++ timestamp
  let signature := hexEncode (hmacSha256 (strBytes secret) (strBytes message))
  { req with
    headers := setHeader (setHeader req.headers "X-Signature" signature)
      "X-Timestamp" timestamp }

/-! ## Claim theorems -/

/-- C2: for every incoming request, the path at which the repository is
opened is produced by the join-and-verify primitive
(`SecureJoin(scanPath, didPath(did, name))`), and the resulting path
always lies under the configured scan root: whatever the request's `did`
and `name` segments contain (`..` sequences, absolute segments, repeated
separators), the result is the root followed only by honest path
components. -/
theorem repoOpenPath_confined (scanPath did name : String) :
    underRoot scanPath (repoOpenPath scanPath did name) :=
  secureJoin_underRoot scanPath (didPath did name)

/-- C3: opening an empty repository (no commits) for the repo index yields
the successful `{IsEmpty: true}` response (status 200), not an error,
while an invalid path (no repository) yields the not-found error
(status 404). -/
theorem repoIndex_empty_vs_invalid (ref : String) (cfg : RepoConfig)
    (desc : String) :
    repoIndex .emptyRepo ref cfg desc = .json emptyRepoIndexResponse ∧
    emptyRepoIndexResponse.isEmpty = true ∧
    (repoIndex .emptyRepo ref cfg desc).status = 200 ∧
    repoIndex .invalid ref cfg desc = .missing ∧
    (repoIndex .invalid ref cfg desc).status = 404 :=
  ⟨rfl, rfl, rfl, rfl, rfl⟩

/-- C9: for every non-empty repository whose git-layer reads succeed, the
repo index response carries at most the 10 newest commits (the prefix of
the newest-first commit list), while `TotalCommits` equals the full
unpaginated commit count computed before truncation. -/
theorem repoIndex_truncates_to_ten (gr : GitRepo) (ref0 : String)
    (cfg : RepoConfig) (desc : String) (cl : List Commit) (bs : List Branch)
    (fs : List FileEntry) (mb : String) (hc : gr.commitsR = .ok cl)
    (hb : gr.branchesR = .ok bs) (hf : gr.fileTreeR "" = .ok fs)
    (hm : gr.mainBranchR = .ok mb) :
    ∃ r : RepoIndexResponse,
      repoIndex (.valid gr) ref0 cfg desc = .json r ∧
      r.commits = cl.take 10 ∧ r.commits.length ≤ 10 ∧
      r.totalCommits = cl.length := by
  have htake : (if cl.length > 10 then cl.take 10 else cl) = cl.take 10 := by
    split
    · rfl
    · rename_i h
      rw [List.take_of_length_le (by omega)]
  have hlen : (cl.take 10).length ≤ 10 := by
    rw [List.length_take]
    omega
  by_cases h0 : ref0 = ""
  · refine ⟨⟨false, mb, cl.take 10, desc, (readmeScan gr cfg.readme).1,
      (readmeScan gr cfg.readme).2, fs, bs, gr.tagsR, cl.length⟩, ?_, rfl, hlen, rfl⟩
    simp only [repoIndex, gitOpen, hc, hb, hf, h0, if_pos, hm, htake]
  · refine ⟨⟨false, ref0, cl.take 10, desc, (readmeScan gr cfg.readme).1,
      (readmeScan gr cfg.readme).2, fs, bs, gr.tagsR, cl.length⟩, ?_, rfl, hlen, rfl⟩
    simp only [repoIndex, gitOpen, hc, hb, hf, if_neg h0, htake]

/-- A neutral repository handle, specialized per test scenario. -/
def grBase : GitRepo :=
  { commitsR := .ok [], branchesR := .ok [], tagsR := [],
    fileContentR := fun _ => .fileNotFound, fileTreeR := fun _ => .ok [],
    mainBranchR := .ok "main", mergeR := fun _ _ => .ok,
    mergeCheckR := fun _ _ => .ok, treeR := [] }

/-- Twelve commits, newest first. -/
def twelveCommits : List Commit :=
  (List.range 12).map (fun i => ⟨toString i⟩)

theorem repoIndex_truncates_to_ten_witness :
    ∃ r : RepoIndexResponse,
      repoIndex (.valid { grBase with commitsR := .ok twelveCommits })
        "main" ⟨["README.md"], "main"⟩ "" = .json r ∧
      r.commits = twelveCommits.take 10 ∧ r.commits.length ≤ 10 ∧
      r.totalCommits = twelveCommits.length :=
  repoIndex_truncates_to_ten { grBase with commitsR := .ok twelveCommits }
    "main" ⟨["README.md"], "main"⟩ "" twelveCommits [] [] "main"
    rfl rfl rfl rfl

theorem posIntParam_pos (s : String) (d : Nat) (hd : 1 ≤ d) :
    1 ≤ posIntParam s d := by
  unfold posIntParam
  split
  · exact hd
  · split
    · split
      · rename_i p hp hp0
        omega
      · exact hd
    · exact hd

theorem posIntParam_default (s : String) (d : Nat)
    (h : s = "" ∨ atoiGo s = none ∨ ∃ v, atoiGo s = some v ∧ v ≤ 0) :
    posIntParam s d = d := by
  unfold posIntParam
  rcases h with h | h | ⟨v, hv, hv0⟩
  · simp [h]
  · split
    · rfl
    · rw [h]
  · split
    · rfl
    · rw [hv]
      simp only []
      rw [if_neg (by omega)]

/-- `page` past the last page forces `start ≥ total`. -/
theorem ceil_lt_imp_start_ge (t ps page : Nat) (hps : 1 ≤ ps)
    (hpage : 1 ≤ page) (h : (t + ps - 1) / ps < page) :
    t ≤ (page - 1) * ps := by
  have h1 : t + ps - 1 < page * ps :=
    (Nat.div_lt_iff_lt_mul (by omega : 0 < ps)).mp h
  have h2 : (page - 1) * ps + ps = page * ps := by
    cases page with
    | zero => omega
    | succ n => simp [Nat.succ_mul]
  omega

/-- C4: for every commit list and every `page`/`per_page` request, the log
response is a success carrying `Total` equal to the unpaginated commit
count; a `page` beyond `ceil(total / per_page)` yields an empty commit
slice; the default page size (empty `per_page` parameter) is 30. -/
theorem log_pagination_boundary (gr : GitRepo)
    (ref desc pageParam perPageParam : String) (cl : List Commit)
    (hc : gr.commitsR = .ok cl) :
    ∃ r : RepoLogResponse,
      logHandler (.valid gr) ref desc pageParam perPageParam = .json r ∧
      r.total = cl.length ∧
      r.page = posIntParam pageParam 1 ∧
      r.perPage = posIntParam perPageParam 30 ∧
      (perPageParam = "" → r.perPage = 30) ∧
      ((cl.length + r.perPage - 1) / r.perPage < r.page → r.commits = []) := by
  refine ⟨⟨(if (posIntParam pageParam 1 - 1) * posIntParam perPageParam 30 ≥ cl.length
        then []
        else (cl.drop ((posIntParam pageParam 1 - 1) * posIntParam perPageParam 30)).take
          (min ((posIntParam pageParam 1 - 1) * posIntParam perPageParam 30 +
            posIntParam perPageParam 30) cl.length -
            (posIntParam pageParam 1 - 1) * posIntParam perPageParam 30)),
      ref, desc, true, cl.length, posIntParam pageParam 1,
      posIntParam perPageParam 30⟩, ?_, rfl, rfl, rfl, ?_, ?_⟩
  · simp only [logHandler, gitOpen, hc]
  · intro h
    rw [posIntParam_default _ _ (Or.inl h)]
  · intro h
    have hge := ceil_lt_imp_start_ge cl.length (posIntParam perPageParam 30)
      (posIntParam pageParam 1) (posIntParam_pos _ _ (by omega))
      (posIntParam_pos _ _ (by omega)) h
    simp only [ge_iff_le, if_pos hge]

theorem log_pagination_boundary_witness :
    ∃ r : RepoLogResponse,
      logHandler (.valid { grBase with commitsR := .ok twelveCommits })
        "main" "" "7" "5" = .json r ∧
      r.total = twelveCommits.length ∧
      r.page = posIntParam "7" 1 ∧
      r.perPage = posIntParam "5" 30 ∧
      ("5" = "" → r.perPage = 30) ∧
      ((twelveCommits.length + r.perPage - 1) / r.perPage < r.page →
        r.commits = []) :=
  log_pagination_boundary { grBase with commitsR := .ok twelveCommits }
    "main" "" "7" "5" twelveCommits rfl

/-- C10: malformed pagination parameters never cause an error: a `page` or
`per_page` value that is absent (`""`), non-numeric, zero, or negative is
silently replaced by the defaults `page = 1`, `per_page = 30`, and the
request proceeds to a successful response with those values. -/
theorem log_malformed_params_defaulted (gr : GitRepo)
    (ref desc pageParam perPageParam : String) (cl : List Commit)
    (hc : gr.commitsR = .ok cl)
    (hp : pageParam = "" ∨ atoiGo pageParam = none ∨
      ∃ v, atoiGo pageParam = some v ∧ v ≤ 0)
    (hq : perPageParam = "" ∨ atoiGo perPageParam = none ∨
      ∃ v, atoiGo perPageParam = some v ∧ v ≤ 0) :
    ∃ r : RepoLogResponse,
      logHandler (.valid gr) ref desc pageParam perPageParam = .json r ∧
      r.page = 1 ∧ r.perPage = 30 := by
  refine ⟨⟨(if (posIntParam pageParam 1 - 1) * posIntParam perPageParam 30 ≥ cl.length
        then []
        else (cl.drop ((posIntParam pageParam 1 - 1) * posIntParam perPageParam 30)).take
          (min ((posIntParam pageParam 1 - 1) * posIntParam perPageParam 30 +
            posIntParam perPageParam 30) cl.length -
            (posIntParam pageParam 1 - 1) * posIntParam perPageParam 30)),
      ref, desc, true, cl.length, posIntParam pageParam 1,
      posIntParam perPageParam 30⟩, ?_, ?_, ?_⟩
  · simp only [logHandler, gitOpen, hc]
  · exact posIntParam_default _ _ hp
  · exact posIntParam_default _ _ hq

theorem log_malformed_params_defaulted_witness :
    ("abc" = "" ∨ atoiGo "abc" = none ∨ ∃ v, atoiGo "abc" = some v ∧ v ≤ 0) ∧
    ("-4" = "" ∨ atoiGo "-4" = none ∨ ∃ v, atoiGo "-4" = some v ∧ v ≤ 0) ∧
    ∃ r : RepoLogResponse,
      logHandler (.valid { grBase with commitsR := .ok twelveCommits })
        "main" "" "abc" "-4" = .json r ∧
      r.page = 1 ∧ r.perPage = 30 := by
  refine ⟨Or.inr (Or.inl (by decide)), Or.inr (Or.inr ⟨-4, by decide, by decide⟩), ?_⟩
  exact log_malformed_params_defaulted
    { grBase with commitsR := .ok twelveCommits } "main" "" "abc" "-4"
    twelveCommits rfl (Or.inr (Or.inl (by decide)))
    (Or.inr (Or.inr ⟨-4, by decide, by decide⟩))

/-- C5: the create-repo handler answers 204 on successful creation
(bare-repo init plus permission registration), 409 when a repository
already exists at the target path, 500 on any other initialization
failure; an omitted or empty `default_branch` is replaced by the
configured main branch before the repository is initialized. -/
theorem newRepo_status_mapping (cfg : RepoConfig) (scanPath : String)
    (d : NewRepoRequest) (initBare : String → String → InitBareResult)
    (addRepoPerm : String → String → Except String Unit) (branch : String)
    (hbr : branch = (if d.defaultBranch = "" then cfg.mainBranch else d.defaultBranch)) :
    (d.defaultBranch = "" → branch = cfg.mainBranch) ∧
    (initBare (secureJoin scanPath (filepathJoin d.did d.name)) branch = .ok →
      addRepoPerm d.did (filepathJoin d.did d.name) = .ok () →
      newRepoHandler (some d) cfg scanPath initBare addRepoPerm =
        .statusOnly 204) ∧
    (initBare (secureJoin scanPath (filepathJoin d.did d.name)) branch =
        .alreadyExists →
      newRepoHandler (some d) cfg scanPath initBare addRepoPerm =
        .httpError 409 "That repo already exists!") ∧
    (∀ msg, initBare (secureJoin scanPath (filepathJoin d.did d.name)) branch =
        .failed msg →
      newRepoHandler (some d) cfg scanPath initBare addRepoPerm =
        .httpError 500 msg) := by
  by_cases hd : d.defaultBranch = ""
  · rw [if_pos hd] at hbr
    subst hbr
    refine ⟨fun _ => rfl, ?_, ?_, ?_⟩
    · intro h1 h2
      simp only [newRepoHandler, hd, if_pos, h1, h2]
    · intro h1
      simp only [newRepoHandler, hd, if_pos, h1]
    · intro msg h1
      simp only [newRepoHandler, hd, if_pos, h1]
  · rw [if_neg hd] at hbr
    subst hbr
    refine ⟨fun h => absurd h hd, ?_, ?_, ?_⟩
    · intro h1 h2
      simp only [newRepoHandler, if_neg hd, h1, h2]
    · intro h1
      simp only [newRepoHandler, if_neg hd, h1]
    · intro msg h1
      simp only [newRepoHandler, if_neg hd, h1]

theorem newRepo_status_mapping_witness :
    newRepoHandler (some ⟨"did:plc:alice", "project", ""⟩)
        ⟨["README.md"], "main"⟩ "/repos"
        (fun _ _ => InitBareResult.alreadyExists) (fun _ _ => .ok ()) =
      .httpError 409 "That repo already exists!" :=
  (newRepo_status_mapping ⟨["README.md"], "main"⟩ "/repos"
    ⟨"did:plc:alice", "project", ""⟩
    (fun _ _ => InitBareResult.alreadyExists) (fun _ _ => .ok ())
    "main" (by decide)).2.2.1 rfl

/-- A two-conflict merge failure, as `git.ErrMerge` carries it. -/
def exMergeErr : ErrMergeData :=
  ⟨[⟨"a.txt", "context-mismatch"⟩, ⟨"b.txt", "delete-modify"⟩],
   "patch does not apply: 2 conflicts"⟩

/-- A handle whose merge and merge-check both fail with the two-conflict
`git.ErrMerge`. -/
def grConflicted : GitRepo :=
  { grBase with
    mergeR := fun _ _ => .conflicted exMergeErr,
    mergeCheckR := fun _ _ => .conflicted exMergeErr }

/-- C1 counterexample: a merge-check request whose patch fails with
conflicts is answered through the same `writeConflict` helper as the merge
endpoint, so its HTTP status is 400, not 200 as claimed (the body still
carries `is_conflicted = true` and the full conflict list). -/
theorem mergeCheck_conflict_not_200 :
    (mergeCheckHandler (.valid grConflicted) (.ok ("patch", "main"))).status = 400 ∧
    ¬ (mergeCheckHandler (.valid grConflicted) (.ok ("patch", "main"))).status = 200 := by
  constructor
  · rfl
  · decide

/-- C1 (amended): for every merge or merge-check request whose patch fails
to apply due to conflicts, the response body carries the complete
structured conflict list (one entry per conflict, each with filename and
reason) plus the summary message and `is_conflicted = true`, never only
the first failure; both endpoints respond through `writeConflict` with
HTTP status 400 and the structured conflict body. -/
theorem merge_and_check_conflict_full_list (gr : GitRepo)
    (body : MergeRequestBody) (pb : String × String) (e1 e2 : ErrMergeData)
    (h1 : gr.mergeR body.patch body.branch = .conflicted e1)
    (h2 : gr.mergeCheckR pb.1 pb.2 = .conflicted e2) :
    mergeHandler (.valid gr) (.ok body) =
      .conflict ⟨true, e1.conflicts.map (fun c => ⟨c.filename, c.reason⟩),
        e1.message⟩ ∧
    (mergeHandler (.valid gr) (.ok body)).status = 400 ∧
    (e1.conflicts.map
      (fun c : GitConflict => (⟨c.filename, c.reason⟩ : ConflictInfo))).length =
      e1.conflicts.length ∧
    mergeCheckHandler (.valid gr) (.ok pb) =
      .conflict ⟨true, e2.conflicts.map (fun c => ⟨c.filename, c.reason⟩),
        e2.message⟩ ∧
    (mergeCheckHandler (.valid gr) (.ok pb)).status = 400 := by
  have hm : mergeHandler (.valid gr) (.ok body) =
      .conflict ⟨true, e1.conflicts.map (fun c => ⟨c.filename, c.reason⟩),
        e1.message⟩ := by
    simp only [mergeHandler, gitOpen, h1]
  have hmc : mergeCheckHandler (.valid gr) (.ok pb) =
      .conflict ⟨true, e2.conflicts.map (fun c => ⟨c.filename, c.reason⟩),
        e2.message⟩ := by
    simp only [mergeCheckHandler, gitOpen, h2]
  refine ⟨hm, ?_, List.length_map _ _, hmc, ?_⟩
  · rw [hm]
    rfl
  · rw [hmc]
    rfl

theorem merge_and_check_conflict_full_list_witness :
    mergeHandler (.valid grConflicted)
        (.ok ⟨"patch", "main", "Alice", "a@example.com", "", "merge the fix"⟩) =
      .conflict ⟨true,
        [⟨"a.txt", "context-mismatch"⟩, ⟨"b.txt", "delete-modify"⟩],
        "patch does not apply: 2 conflicts"⟩ :=
  (merge_and_check_conflict_full_list grConflicted
    ⟨"patch", "main", "Alice", "a@example.com", "", "merge the fix"⟩
    ("patch", "main") exMergeErr exMergeErr rfl rfl).1

/-- C8: when the blob store behind `FileContent` is a set of blob paths,
a request whose path resolves to a binary-detected blob is answered with
`IsBinary = true` and empty contents (the blob bytes are not inlined),
while a path that does not resolve to an existing file (missing, or a
tree: not among the blob paths) is answered with the not-found error. -/
theorem blob_binary_signal_and_missing (gr : GitRepo) (ref : String)
    (files : List (String × BlobData))
    (hfc : gr.fileContentR = fileContentOf files) :
    (∀ p b, files.lookup p = some b → isBinaryBlob b = true →
      blobHandler (.valid gr) ref p = .json ⟨ref, "", p, true, 0⟩) ∧
    (∀ p, files.lookup p = none →
      blobHandler (.valid gr) ref p = .missing ∧
      (blobHandler (.valid gr) ref p).status = 404) := by
  constructor
  · intro p b hl hbin
    simp only [blobHandler, gitOpen, hfc, fileContentOf, hl, hbin, if_pos]
  · intro p hl
    constructor
    · simp only [blobHandler, gitOpen, hfc, fileContentOf, hl]
    · simp only [blobHandler, gitOpen, hfc, fileContentOf, hl]
      rfl

/-- A PNG-like blob: its sampled prefix contains a NUL byte. -/
def binaryBlobEx : BlobData := ⟨[137, 80, 78, 71, 0, 26, 10]⟩

theorem blob_binary_signal_and_missing_witness :
    isBinaryBlob binaryBlobEx = true ∧
    blobHandler
        (.valid { grBase with
          fileContentR := fileContentOf [("logo.png", binaryBlobEx)] })
        "main" "logo.png" = .json ⟨"main", "", "logo.png", true, 0⟩ ∧
    blobHandler
        (.valid { grBase with
          fileContentR := fileContentOf [("logo.png", binaryBlobEx)] })
        "main" "src" = .missing := by
  refine ⟨by decide, ?_, ?_⟩
  · exact (blob_binary_signal_and_missing
      { grBase with fileContentR := fileContentOf [("logo.png", binaryBlobEx)] }
      "main" [("logo.png", binaryBlobEx)] rfl).1 "logo.png" binaryBlobEx
      (by decide) (by decide)
  · exact ((blob_binary_signal_and_missing
      { grBase with fileContentR := fileContentOf [("logo.png", binaryBlobEx)] }
      "main" [("logo.png", binaryBlobEx)] rfl).2 "src" (by decide)).1

/-- C6: an archive request for repository `name` and a `.tar.gz` file
parameter is answered with `Content-Type: application/gzip` and
`Content-Disposition: inline; filename="<name>-<ref>.tar.gz"` (where the
ref is the file parameter with the suffix trimmed), and every entry of the
tar archive lies under the `<name>-<ref>` prefix. -/
theorem archive_headers_and_entry_prefixes (gr : GitRepo) (name file : String)
    (h : hasSuffixGo file ".tar.gz" = true) :
    ∃ r : ArchiveResponse,
      archiveHandler (.valid gr) name file = .json r ∧
      r.headers = [("Content-Disposition", "inline; filename=\"" ++
          (name ++ "-" ++ trimSuffixGo file ".tar.gz" ++ ".tar.gz") ++ "\""),
        ("Content-Type", "application/gzip")] ∧
      ∀ e ∈ r.entries, ∃ rest,
        e = (name ++ "-" ++ trimSuffixGo file ".tar.gz") ++ "/" ++ rest := by
  refine ⟨⟨[("Content-Disposition", "inline; filename=\"" ++
      (name ++ "-" ++ trimSuffixGo file ".tar.gz" ++ ".tar.gz") ++ "\""),
      ("Content-Type", "application/gzip")],
    writeTar (name ++ "-" ++ trimSuffixGo file ".tar.gz") gr.treeR⟩, ?_, rfl, ?_⟩
  · simp only [archiveHandler, h, Bool.not_true, Bool.false_eq_true,
      not_false_eq_true, if_neg, gitOpen]
    simp
  · intro e he
    rcases List.mem_map.mp he with ⟨p, _, rfl⟩
    exact ⟨p, rfl⟩

theorem archive_headers_and_entry_prefixes_witness :
    hasSuffixGo "v1.0.tar.gz" ".tar.gz" = true ∧
    ∃ r : ArchiveResponse,
      archiveHandler (.valid { grBase with treeR := ["README.md", "src", "src/main.go"] })
        "myrepo" "v1.0.tar.gz" = .json r ∧
      r.headers = [("Content-Disposition", "inline; filename=\"" ++
          ("myrepo" ++ "-" ++ trimSuffixGo "v1.0.tar.gz" ".tar.gz" ++ ".tar.gz") ++ "\""),
        ("Content-Type", "application/gzip")] ∧
      ∀ e ∈ r.entries, ∃ rest,
        e = ("myrepo" ++ "-" ++ trimSuffixGo "v1.0.tar.gz" ".tar.gz") ++ "/" ++ rest :=
  ⟨by decide, archive_headers_and_entry_prefixes
    { grBase with treeR := ["README.md", "src", "src/main.go"] }
    "myrepo" "v1.0.tar.gz" (by decide)⟩

theorem find_filter_ne_none (hs : List (String × String)) (k : String) :
    (hs.filter (fun p => p.1 ≠ k)).find? (fun p => p.1 = k) = none := by
  rw [List.find?_eq_none]
  intro x hx
  have hmem := List.of_mem_filter hx
  simp only [ne_eq, decide_not, Bool.not_eq_true, decide_eq_false_iff_not] at hmem
  simpa using hmem

theorem headerVal_setHeader_same (hs : List (String × String)) (k v : String) :
    headerVal (setHeader hs k v) k = some v := by
  unfold headerVal setHeader
  rw [List.find?_append, find_filter_ne_none]
  simp [List.find?]

theorem find?_filter_ne_comm (hs : List (String × String)) (k k2 : String)
    (h : k ≠ k2) :
    (hs.filter (fun p => p.1 ≠ k2)).find? (fun p => p.1 = k) =
      hs.find? (fun p => p.1 = k) := by
  induction hs with
  | nil => rfl
  | cons x xs ih =>
    rw [List.filter_cons]
    by_cases hx2 : x.1 = k2
    · have hx : ¬ x.1 = k := fun hh => h (by rw [← hh]; exact hx2)
      rw [if_neg (by simp [hx2]), ih, List.find?_cons_of_neg _ (by simp [hx])]
    · rw [if_pos (by simp [hx2])]
      by_cases hx : x.1 = k
      · rw [List.find?_cons_of_pos _ (by simp [hx]),
          List.find?_cons_of_pos _ (by simp [hx])]
      · rw [List.find?_cons_of_neg _ (by simp [hx]),
          List.find?_cons_of_neg _ (by simp [hx]), ih]

theorem headerVal_setHeader_other (hs : List (String × String))
    (k k2 v : String) (h : k ≠ k2) :
    headerVal (setHeader hs k2 v) k = headerVal hs k := by
  unfold headerVal setHeader
  rw [List.find?_append, find?_filter_ne_comm hs k k2 h]
  cases hfind : hs.find? (fun p => p.1 = k) with
  | none =>
    simp only [hfind, Option.none_orElse, List.find?]
    rw [decide_eq_false (Ne.symm h)]
    rfl
  | some x => simp [hfind]

theorem beBytes_lt (k : Nat) : ∀ v : Nat, ∀ b ∈ beBytes k v, b < 256 := by
  induction k with
  | zero =>
    intro v b hb
    cases hb
  | succ n ih =>
    intro v b hb
    rw [beBytes] at hb
    rcases List.mem_append.mp hb with h | h
    · exact ih _ b h
    · rcases List.mem_singleton.mp h with rfl
      exact Nat.mod_lt _ (by omega)

theorem sha256_bytes_lt (msg : List Nat) : ∀ b ∈ sha256 msg, b < 256 := by
  intro b hb
  unfold sha256 at hb
  rcases List.mem_flatMap.mp hb with ⟨w, hw1, hw⟩
  exact beBytes_lt 4 w b hw

theorem hmacSha256_bytes_lt (key msg : List Nat) :
    ∀ b ∈ hmacSha256 key msg, b < 256 := by
  intro b hb
  unfold hmacSha256 at hb
  exact sha256_bytes_lt _ b hb

theorem hexDigit_mem (n : Nat) (h : n < 16) : hexDigit n ∈ hexAlphabet := by
  revert h
  revert n
  decide

theorem hexEncode_lowercase (bs : List Nat) (hbs : ∀ b ∈ bs, b < 256) :
    ∀ c ∈ (hexEncode bs).data, c ∈ hexAlphabet := by
  intro c hc
  unfold hexEncode at hc
  rcases List.mem_flatMap.mp hc with ⟨b, hb, hcb⟩
  have h256 := hbs b hb
  rcases List.mem_cons.mp hcb with h1 | h1
  · rw [h1]
    exact hexDigit_mem _ (by omega)
  · rcases List.mem_singleton.mp h1 with rfl
    exact hexDigit_mem _ (Nat.mod_lt _ (by omega))

/-- C7: every outgoing request of the signed transport carries
`X-Timestamp` equal to the generated timestamp and `X-Signature` equal to
the lowercase-hex HMAC-SHA256, keyed with the shared secret, of exactly
`method + URL.Path + timestamp`: the signature is independent of the query
string, the body and the preexisting headers, and every character of the
signature is a lowercase hexadecimal digit. -/
theorem signer_transport_signature (secret t : String) (req : HttpRequest) :
    headerVal (roundTrip secret t req).headers "X-Timestamp" = some t ∧
    headerVal (roundTrip secret t req).headers "X-Signature" =
      some (hexEncode (hmacSha256 (strBytes secret)
        (strBytes (req.method ++ req.urlPath ++ t)))) ∧
    (∀ req2 : HttpRequest, req2.method = req.method →
      req2.urlPath = req.urlPath →
      headerVal (roundTrip secret t req2).headers "X-Signature" =
        headerVal (roundTrip secret t req).headers "X-Signature") ∧
    (∀ s, headerVal (roundTrip secret t req).headers "X-Signature" = some s →
      ∀ c ∈ s.data, c ∈ hexAlphabet) := by
  have hsig : ∀ r : HttpRequest,
      headerVal (roundTrip secret t r).headers "X-Signature" =
        some (hexEncode (hmacSha256 (strBytes secret)
          (strBytes (r.method ++ r.urlPath ++ t)))) := by
    intro r
    unfold roundTrip
    rw [headerVal_setHeader_other _ _ _ _ (by decide),
      headerVal_setHeader_same]
  refine ⟨?_, hsig req, ?_, ?_⟩
  · unfold roundTrip
    rw [headerVal_setHeader_same]
  · intro req2 hm hp
    rw [hsig req2, hsig req, hm, hp]
  · intro s hs c hc
    rw [hsig req] at hs
    rcases Option.some.inj hs with rfl
    exact hexEncode_lowercase _ (hmacSha256_bytes_lt _ _) c hc

theorem signer_transport_signature_witness :
    headerVal (roundTrip "shared-secret" "2025-01-02T03:04:05Z"
        ⟨"POST", "/repo/new", "force=1", "a different body",
          [("Accept", "text/plain")]⟩).headers "X-Signature" =
      headerVal (roundTrip "shared-secret" "2025-01-02T03:04:05Z"
        ⟨"POST", "/repo/new", "", "body", []⟩).headers "X-Signature" :=
  (signer_transport_signature "shared-secret" "2025-01-02T03:04:05Z"
    ⟨"POST", "/repo/new", "", "body", []⟩).2.2.1
    ⟨"POST", "/repo/new", "force=1", "a different body",
      [("Accept", "text/plain")]⟩ rfl rfl
